import Mathlib

/-!
Verification of the numpy-flight core: the shape-preserving array codec
(`src/flight/utils/alter.py`, functions `np_2_pa` and `pa_2_np`), the
command-addressed dispatcher (`src/flight/numpy_server.py`, `Server.do_put`
and `Server.do_get`) and the client write path
(`src/flight/numpy_client.py`, `Client.write`).

Modelling decisions, each traceable to the source:
- A NumPy ndarray is modelled as `NDArray`: its shape (`arr.shape`, a tuple
  of non-negative dimension sizes), its dtype class (`arr.dtype`: signed
  integer, floating point, or text) and its elements flattened in row-major
  order (`arr.flatten()`).
- Scalars are modelled as a tagged sum `Scalar`; a float64 element is
  represented opaquely by its bit pattern, since the codec only moves
  elements and never computes with them.
- A PyArrow Table is modelled as a named list of columns, each column a
  list of `Record` rows (`{data, shape}` structs plus the column element
  class which PyArrow infers from the NumPy dtype).  Tables built by
  `pa.Table.from_pydict` on the encoder side always carry one row per
  column; `Table.numRows` mirrors `pa.Table.num_rows`.
- `np.asarray(list)` on the decode side re-infers the dtype from the plain
  Python values: `inferClass` mirrors that inference, including NumPy's
  float64 default for an empty list.
- `arr.reshape(shape)` with non-negative dimensions succeeds exactly when
  the element count equals the product of the dimensions; on mismatch it
  raises, which we model with `Except`.
- Python exceptions are modelled as `Except` errors; a dict comprehension
  that raises aborts the whole comprehension, modelled by short-circuiting
  recursion.
- The server storage dict is an insertion-ordered association list; Python
  dict assignment overwrites in place.
- Lock usage and writer lifecycle are modelled as event traces recording,
  in program order, the lock and resource operations each handler performs.
-/

namespace NumpyFlight

/-- Equality of `Except` results is decidable when it is on both sides. -/
instance {ε α : Type} [DecidableEq ε] [DecidableEq α] :
    DecidableEq (Except ε α) := fun x y =>
  match x, y with
  | .error a, .error b =>
    if h : a = b then .isTrue (by rw [h]) else .isFalse (by simp [h])
  | .error _, .ok _ => .isFalse (by simp)
  | .ok _, .error _ => .isFalse (by simp)
  | .ok a, .ok b =>
    if h : a = b then .isTrue (by rw [h]) else .isFalse (by simp [h])

/-- The three scalar-type classes handled by the codec: signed 64-bit
integers, 64-bit floats and UTF-8 text. -/
inductive DClass
  | int64
  | float64
  | text
deriving DecidableEq

/-- One array element.  A float is carried opaquely as its bit pattern:
the codec never interprets element values, it only moves them. -/
inductive Scalar
  | i (v : Int)
  | f (bits : Nat)
  | s (v : String)
deriving DecidableEq

/-- The scalar-type class of one element. -/
def Scalar.cls : Scalar → DClass
  | .i _ => .int64
  | .f _ => .float64
  | .s _ => .text

/-- A NumPy ndarray: shape, dtype class, and the elements flattened in
row-major order.  `data.length = shape.prod` holds for every real ndarray
and is carried as the predicate `NDArray.WellFormed`. -/
structure NDArray where
  shape : List Nat
  dtype : DClass
  data : List Scalar
deriving DecidableEq

/-- Every real ndarray satisfies this: the flattened element count is the
product of the dimension sizes. -/
def NDArray.WellFormed (a : NDArray) : Prop :=
  a.data.length = a.shape.prod

/-- A well-formed ndarray whose elements all belong to its dtype class. -/
def NDArray.WellTyped (a : NDArray) : Prop :=
  a.data.length = a.shape.prod ∧ ∀ x ∈ a.data, x.cls = a.dtype

/-- One wire record: the struct `{data: list, shape: list}` stored in one
table cell, together with the column element class PyArrow infers from the
NumPy dtype (`list<int64>`, `list<double>` or `list<string>`).  On the wire
the shape entries are stored as signed 64-bit integers
(`np.array(arr.shape, dtype=np.int64)`); actual shapes are the non-negative
dimension sizes, so they are modelled as naturals. -/
structure Record where
  data : List Scalar
  shape : List Nat
  cls : DClass
deriving DecidableEq

/-- A PyArrow table: named columns, each a list of record rows. -/
structure Table where
  cols : List (String × List Record)
deriving DecidableEq

/-- `pa.Table.num_rows`: zero for a table with no columns, otherwise the
(common) row count of the columns. -/
def Table.numRows (t : Table) : Nat :=
  match t.cols with
  | [] => 0
  | c :: _ => c.2.length

/-- PyArrow's table invariant: all columns have the same number of rows. -/
def Table.Uniform (t : Table) : Prop :=
  ∀ c ∈ t.cols, c.2.length = t.numRows

/-- The table keeping only the first row of every column. -/
def Table.firstRow (t : Table) : Table :=
  ⟨t.cols.map fun c => (c.1, c.2.take 1)⟩

/-- The Python input `dict[str, np.ndarray]`, values possibly `None`. -/
abbrev NamedInput := List (String × Option NDArray)

/-- The decoded mapping `dict[str, np.ndarray]`. -/
abbrev NamedArrays := List (String × NDArray)

/-- `np.asarray(values)` dtype inference on a plain Python list, as used by
`pa_2_np`: a non-empty list of integers gives int64; any string present
gives a text dtype; everything else — floats, mixed numbers, and notably
the empty list — gives float64. -/
def inferClass (l : List Scalar) : DClass :=
  if l ≠ [] ∧ ∀ x ∈ l, x.cls = DClass.int64 then DClass.int64
  else if ∃ x ∈ l, x.cls = DClass.text then DClass.text
  else DClass.float64

/-- The inner `_f` of `np_2_pa`: build the one-row struct
`{"data": arr.flatten(), "shape": np.array(arr.shape, dtype=np.int64)}`;
PyArrow tags the column with the element class of the NumPy dtype. -/
def encodeArr (a : NDArray) : Record :=
  ⟨a.data, a.shape, a.dtype⟩

/-- `np_2_pa`: drop `None` values, encode each remaining array as a
single-row column, and assemble the table
(`pa.Table.from_pydict({key: _f(value) ... if value is not None})`). -/
def np_2_pa (data : NamedInput) : Table :=
  ⟨data.filterMap fun p => p.2.map fun a => (p.1, [encodeArr a])⟩

/-- Decoding failures of `pa_2_np`: `shapeMismatch` models the `ValueError`
raised by `np.reshape` when the element count does not match the shape;
`noRows` models the `IndexError` of `table.column(name)[0]` on a column
with no rows. -/
inductive DecodeErr
  | shapeMismatch (name : String)
  | noRows (name : String)
deriving DecidableEq

/-- The inner `_f` of `pa_2_np` on one column: read the first row's struct,
rebuild the array with `np.asarray(data).reshape(shape)`.  Rows beyond the
first are never read.  The rebuilt array's dtype is re-inferred from the
plain Python values. -/
def decodeCol (name : String) (rs : List Record) : Except DecodeErr NDArray :=
  match rs with
  | [] => .error (.noRows name)
  | r :: _ =>
    if r.data.length = r.shape.prod then
      .ok ⟨r.shape, inferClass r.data, r.data⟩
    else
      .error (.shapeMismatch name)

/-- The dict comprehension of `pa_2_np`, column by column in table order;
the first exception aborts the whole comprehension. -/
def decodeCols : List (String × List Record) → Except DecodeErr NamedArrays
  | [] => .ok []
  | (n, rs) :: rest =>
    match decodeCol n rs with
    | .error e => .error e
    | .ok a =>
      match decodeCols rest with
      | .error e => .error e
      | .ok tail => .ok ((n, a) :: tail)

/-- `pa_2_np`: decode every column of the table back to a named array. -/
def pa_2_np (t : Table) : Except DecodeErr NamedArrays :=
  decodeCols t.cols

/-! ### Server (`src/flight/numpy_server.py`) -/

/-- `Server._storage`: the insertion-ordered Python dict mapping command
strings to stored tables. -/
abbrev Store := List (String × Table)

/-- Python dict lookup `storage[command]` / `command in storage`. -/
def Store.get : Store → String → Option Table
  | [], _ => none
  | (k, v) :: rest, c => if k = c then some v else Store.get rest c

/-- Python dict assignment `storage[command] = table`: overwrite in place
if the key exists, otherwise append (insertion order). -/
def Store.put : Store → String → Table → Store
  | [], c, t => [(c, t)]
  | (k, v) :: rest, c, t =>
    if k = c then (k, t) :: rest else (k, v) :: Store.put rest c t

/-- Failures of `Server.do_get`: the `FlightServerError` for a missing
command, or a codec error propagating out of `pa_2_np`. -/
inductive ServerErr
  | notFound (command : String)
  | decodeFail (e : DecodeErr)
deriving DecidableEq

/-- The application-supplied `Server.f`: a transform on the decoded
mapping, whose result (values possibly `None`) is re-encoded. -/
abbrev Transform := NamedArrays → NamedInput

/-- `Server.do_put`: store the received table under the command and return
a descriptor echoing the command.  Always succeeds. -/
def Server.doPut (storage : Store) (command : String) (table : Table) :
    Store × String :=
  (Store.put storage command table, command)

/-- `Server.do_get`: look the command up (raising `FlightServerError` when
absent), decode the stored table, apply `f`, re-encode, and return the
result table.  The storage dict is only read, never written. -/
def Server.doGet (f : Transform) (storage : Store) (command : String) :
    Except ServerErr Table × Store :=
  match Store.get storage command with
  | none => (.error (.notFound command), storage)
  | some table =>
    match pa_2_np table with
    | .error e => (.error (.decodeFail e), storage)
    | .ok matrices => (.ok (np_2_pa (f matrices)), storage)

/-! ### Lock traces

`do_put` wraps its whole body, including the storage write, in
`with self._lock`; `do_get` touches `self._storage` twice (the membership
test and the read) with no lock acquisition anywhere in its body.  The
traces list the lock and storage events of each handler in program
order. -/

/-- Lock and storage events a handler can perform, in program order. -/
inductive LockEv
  | acquire
  | release
  | storeRead
  | storeWrite
deriving DecidableEq

/-- The lock/storage event trace of `Server.do_put`: the storage write
happens between acquiring and releasing `self._lock`. -/
def doPutLockTrace : List LockEv :=
  [.acquire, .storeWrite, .release]

/-- The lock/storage event trace of `Server.do_get`, by whether the
command is present: the membership test reads the dict and, when the
command is found, `self._storage[command]` reads it again.  No lock event
occurs in either case. -/
def doGetLockTrace (found : Bool) : List LockEv :=
  if found then [.storeRead, .storeRead] else [.storeRead]

/-! ### Client write path (`src/flight/numpy_client.py`) -/

/-- Failures of `Client.write`: the `ValueError("Empty data")` on an empty
input dict, the `TypeError("Empty table")` on a zero-row encoded table,
and a transport failure raised by `writer.write_table`. -/
inductive WriteErr
  | emptyInput
  | emptyTable
  | transport
deriving DecidableEq

/-- Writer lifecycle events of `Client.write`, in program order. -/
inductive WriterEv
  | acquireWriter
  | sendTable
  | closeWriter
deriving DecidableEq

/-- `Client.write`: reject an empty input dict, encode with `np_2_pa`,
reject a zero-row table, then acquire the do_put writer, send the table
(which may fail, abstracted by `sendOk`), and close the writer in a
`finally` block before any transport error propagates.  Returns the
transmitted table alongside the trace of writer events performed. -/
def Client.write (data : NamedInput) (sendOk : Bool) :
    Except WriteErr Table × List WriterEv :=
  if data.isEmpty then (.error .emptyInput, [])
  else
    let table := np_2_pa data
    if table.numRows = 0 then (.error .emptyTable, [])
    else
      ((if sendOk then .ok table else .error .transport),
        [.acquireWriter, .sendTable, .closeWriter])

/-- Well-formedness of an array is checkable. -/
instance (a : NDArray) : Decidable a.WellFormed :=
  inferInstanceAs (Decidable (a.data.length = a.shape.prod))

/-- Well-typedness of an array is checkable. -/
instance (a : NDArray) : Decidable a.WellTyped :=
  inferInstanceAs (Decidable (_ ∧ _))

/-- The PyArrow equal-row-count invariant is checkable. -/
instance (t : Table) : Decidable t.Uniform :=
  inferInstanceAs (Decidable (∀ c ∈ t.cols, c.2.length = t.numRows))

/-! ### Helper lemmas -/

/-- `np.asarray` re-infers the dtype class correctly on any non-empty
homogeneous value list. -/
theorem inferClass_of_uniform (l : List Scalar) (d : DClass) (hne : l ≠ [])
    (h : ∀ x ∈ l, x.cls = d) : inferClass l = d := by
  obtain ⟨x, xs, rfl⟩ := List.exists_cons_of_ne_nil hne
  have hx : x.cls = d := h x (List.mem_cons_self x xs)
  have hmem := List.mem_cons_self x xs
  cases d with
  | int64 =>
    simp only [inferClass]
    rw [if_pos ⟨by simp, h⟩]
  | float64 =>
    have h1 : ¬(x :: xs ≠ [] ∧ ∀ y ∈ x :: xs, y.cls = DClass.int64) := by
      rintro ⟨-, hall⟩
      have hxx := hall x hmem
      rw [hx] at hxx
      exact absurd hxx (by decide)
    have h2 : ¬∃ y ∈ x :: xs, y.cls = DClass.text := by
      rintro ⟨y, hy, hyt⟩
      have hyy := h y hy
      rw [hyt] at hyy
      exact absurd hyy (by decide)
    simp only [inferClass]
    rw [if_neg h1, if_neg h2]
  | text =>
    have h1 : ¬(x :: xs ≠ [] ∧ ∀ y ∈ x :: xs, y.cls = DClass.int64) := by
      rintro ⟨-, hall⟩
      have hxx := hall x hmem
      rw [hx] at hxx
      exact absurd hxx (by decide)
    simp only [inferClass]
    rw [if_neg h1, if_pos ⟨x, hmem, hx⟩]

/-- Decoding an encoded mapping of well-formed non-null arrays succeeds and
returns each array with its shape and data intact and its dtype re-inferred
from the values. -/
theorem decodeCols_np_2_pa_map (m : NamedArrays)
    (h : ∀ p ∈ m, p.2.data.length = p.2.shape.prod) :
    pa_2_np (np_2_pa (m.map fun p => (p.1, some p.2))) =
      .ok (m.map fun p =>
        (p.1, NDArray.mk p.2.shape (inferClass p.2.data) p.2.data)) := by
  induction m with
  | nil => rfl
  | cons p rest ih =>
    have hp := h p (List.mem_cons_self p rest)
    have ih2 := ih fun q hq => h q (List.mem_cons_of_mem p hq)
    simp only [pa_2_np, np_2_pa, List.map_cons, List.filterMap_cons,
      Option.map_some', encodeArr] at ih2 ⊢
    simp only [decodeCols, decodeCol, if_pos hp, ih2]

/-- Overwriting lookup: after `storage[c] = t`, looking up `c` yields
`t`. -/
theorem Store.get_put_self (s : Store) (c : String) (t : Table) :
    Store.get (Store.put s c t) c = some t := by
  induction s with
  | nil => simp [Store.put, Store.get]
  | cons kv rest ih =>
    obtain ⟨k, v⟩ := kv
    by_cases hk : k = c
    · simp [Store.put, Store.get, hk]
    · simp [Store.put, Store.get, hk, ih]

/-- If every column has a row and some column's first record has an element
count different from the product of its shape, the decoding comprehension
aborts with a shape-mismatch error. -/
theorem decodeCols_mismatch (cols : List (String × List Record))
    (hne : ∀ c ∈ cols, c.2 ≠ [])
    (name : String) (rs : List Record) (r : Record)
    (hmem : (name, rs) ∈ cols) (hhd : rs.head? = some r)
    (hbad : r.data.length ≠ r.shape.prod) :
    ∃ n, decodeCols cols = .error (DecodeErr.shapeMismatch n) := by
  induction cols with
  | nil => cases hmem
  | cons c rest ih =>
    obtain ⟨m, ss⟩ := c
    have hss : ss ≠ [] := hne (m, ss) (List.mem_cons_self _ _)
    obtain ⟨s, tl, rfl⟩ := List.exists_cons_of_ne_nil hss
    by_cases hs : s.data.length = s.shape.prod
    · have hmem2 : (name, rs) ∈ rest := by
        rcases List.mem_cons.mp hmem with heq | h2
        · exfalso
          injection heq with h1 h2
          subst h2
          simp only [List.head?_cons, Option.some.injEq] at hhd
          subst hhd
          exact hbad hs
        · exact h2
      obtain ⟨n, hn⟩ :=
        ih (fun d hd => hne d (List.mem_cons_of_mem _ hd)) hmem2
      exact ⟨n, by simp [decodeCols, decodeCol, if_pos hs, hn]⟩
    · exact ⟨m, by simp [decodeCols, decodeCol, if_neg hs]⟩

/-- Decoding any encoded input of well-formed arrays succeeds. -/
theorem np_2_pa_decodes (data : NamedInput)
    (h : ∀ p ∈ data, ∀ a, p.2 = some a → a.data.length = a.shape.prod) :
    ∃ m, pa_2_np (np_2_pa data) = .ok m := by
  induction data with
  | nil => exact ⟨[], rfl⟩
  | cons p rest ih =>
    obtain ⟨ms, hms⟩ := ih fun q hq v hv => h q (List.mem_cons_of_mem p hq) v hv
    cases hp : p.2 with
    | none =>
      refine ⟨ms, ?_⟩
      simp only [pa_2_np, np_2_pa, List.filterMap_cons, hp, Option.map_none'] at hms ⊢
      exact hms
    | some a =>
      have ha := h p (List.mem_cons_self p rest) a hp
      refine ⟨(p.1, NDArray.mk a.shape (inferClass a.data) a.data) :: ms, ?_⟩
      simp only [pa_2_np, np_2_pa, List.filterMap_cons, hp, Option.map_some',
        encodeArr] at hms ⊢
      simp only [decodeCols, decodeCol, if_pos ha, hms]

/-- Decoding reads only the first row of each column: truncating every
column to its first row does not change the result. -/
theorem decodeCols_take_one (cols : List (String × List Record)) :
    decodeCols (cols.map fun c => (c.1, c.2.take 1)) = decodeCols cols := by
  induction cols with
  | nil => rfl
  | cons c rest ih =>
    obtain ⟨n, rs⟩ := c
    cases rs with
    | nil => simp only [List.map_cons, List.take_nil, decodeCols, decodeCol, ih]
    | cons r tl =>
      simp only [List.map_cons, decodeCols, ih]
      rfl

/-- Every column `np_2_pa` builds holds exactly one record. -/
theorem np_2_pa_col_length (data : NamedInput) :
    ∀ c ∈ (np_2_pa data).cols, c.2.length = 1 := by
  intro c hc
  simp only [np_2_pa, List.mem_filterMap] at hc
  obtain ⟨p, -, hp⟩ := hc
  cases hv : p.2 with
  | none => rw [hv] at hp; cases hp
  | some a =>
    rw [hv] at hp
    simp only [Option.map_some', Option.some.injEq] at hp
    rw [← hp]
    rfl

/-! ### Claim theorems -/

/-- C1 (counterexample): the round trip does not preserve the scalar-type
class of an array with zero elements.  Encoding the well-typed, non-null
int64 array of shape `[0]` and decoding it back yields the float64 class:
`np.asarray([])` defaults to float64, so the original class is lost even
though keys, shape and elements survive. -/
theorem round_trip_dtype_counterexample :
    pa_2_np (np_2_pa [("x", some (NDArray.mk [0] DClass.int64 []))]) =
      .ok [("x", NDArray.mk [0] DClass.float64 [])] ∧
    pa_2_np (np_2_pa [("x", some (NDArray.mk [0] DClass.int64 []))]) ≠
      .ok [("x", NDArray.mk [0] DClass.int64 [])] := by
  decide

/-- C1 (amended): for every mapping whose entries are all non-null,
well-typed and carry at least one element, decoding the encoding returns
the mapping itself — same keys in order, same elements, with each array's
shape and scalar-type class preserved; moreover a 0-dimensional (scalar)
array encodes to shape `[]` with a one-element data list and decodes back
to an equal 0-dimensional array.  (The claim as frozen also allowed
zero-element arrays, for which the scalar-type class is not preserved; see
the counterexample.) -/
theorem round_trip (m : NamedArrays)
    (h : ∀ p ∈ m, p.2.WellTyped ∧ p.2.data ≠ []) :
    pa_2_np (np_2_pa (m.map fun p => (p.1, some p.2))) = .ok m ∧
    ∀ (k : String) (v : Scalar),
      np_2_pa [(k, some (NDArray.mk [] v.cls [v]))] =
        ⟨[(k, [Record.mk [v] [] v.cls])]⟩ ∧
      pa_2_np (np_2_pa [(k, some (NDArray.mk [] v.cls [v]))]) =
        .ok [(k, NDArray.mk [] v.cls [v])] := by
  constructor
  · rw [decodeCols_np_2_pa_map m fun p hp => (h p hp).1.1]
    congr 1
    have heach : ∀ p ∈ m,
        (p.1, NDArray.mk p.2.shape (inferClass p.2.data) p.2.data) = p := by
      intro p hp
      rw [inferClass_of_uniform p.2.data p.2.dtype (h p hp).2 (h p hp).1.2]
    rw [List.map_congr_left heach, List.map_id']
  · intro k v
    have hic : inferClass [v] = v.cls :=
      inferClass_of_uniform [v] v.cls (by simp) (by simp)
    refine ⟨rfl, ?_⟩
    simp [pa_2_np, np_2_pa, decodeCols, decodeCol, encodeArr, hic]

/-- C1 (witness): the amended round trip at a concrete non-empty int64
vector. -/
theorem round_trip_witness :
    pa_2_np (np_2_pa ([("x", NDArray.mk [2] DClass.int64 [Scalar.i 1, Scalar.i 2])].map
      fun p => (p.1, some p.2))) =
      .ok [("x", NDArray.mk [2] DClass.int64 [Scalar.i 1, Scalar.i 2])] :=
  (round_trip [("x", NDArray.mk [2] DClass.int64 [Scalar.i 1, Scalar.i 2])]
    (by decide)).1

/-- C2: when a table is stored under the command, `do_get` returns exactly
the re-encoding of the transform applied to the decoding of that table,
and leaves the storage mapping — the entry for the command and every other
entry — unchanged.  Nothing caches the result: the returned table is the
fresh composite `np_2_pa (f (pa_2_np T))`. -/
theorem doGet_decode_transform_encode (f : Transform) (storage : Store)
    (c : String) (T : Table) (m : NamedArrays)
    (h1 : Store.get storage c = some T) (h2 : pa_2_np T = .ok m) :
    Server.doGet f storage c = (.ok (np_2_pa (f m)), storage) := by
  simp [Server.doGet, h1, h2]

/-- C2 (witness): a GET on a one-entry store with the identity-like
transform. -/
theorem doGet_decode_transform_encode_witness :
    Server.doGet (fun m => m.map fun p => (p.1, some p.2))
      [("c", Table.mk [("x", [Record.mk [Scalar.i 42] [] DClass.int64])])] "c" =
      (.ok (np_2_pa ((fun (m : NamedArrays) => m.map fun p => (p.1, some p.2))
          [("x", NDArray.mk [] DClass.int64 [Scalar.i 42])])),
        [("c", Table.mk [("x", [Record.mk [Scalar.i 42] [] DClass.int64])])]) :=
  doGet_decode_transform_encode _ _ "c"
    (Table.mk [("x", [Record.mk [Scalar.i 42] [] DClass.int64])])
    [("x", NDArray.mk [] DClass.int64 [Scalar.i 42])] (by decide) (by decide)

/-- C3: the write path raises the empty-input error exactly for an input
mapping with zero entries; a non-empty input whose entries are all null
has them dropped by the encoder, which still returns a valid zero-column
table rather than the empty-input error. -/
theorem write_emptyInput_iff (data : NamedInput) (sendOk : Bool) :
    ((Client.write data sendOk).1 = .error .emptyInput ↔ data = []) ∧
    (data ≠ [] → (∀ p ∈ data, p.2 = none) → np_2_pa data = ⟨[]⟩) := by
  constructor
  · by_cases hd : data = []
    · subst hd
      simp [Client.write]
    · obtain ⟨p, rest, rfl⟩ := List.exists_cons_of_ne_nil hd
      constructor
      · intro hw
        exfalso
        by_cases h0 : (np_2_pa (p :: rest)).numRows = 0
        · simp [Client.write, h0] at hw
        · by_cases hs : sendOk
          · simp [Client.write, h0, hs] at hw
          · simp [Client.write, h0, hs] at hw
      · intro hcontra
        exact absurd hcontra hd
  · intro hne hall
    have hnil : (List.filterMap
        (fun p => p.2.map fun a => (p.1, [encodeArr a])) data) = [] := by
      rw [List.filterMap_eq_nil_iff]
      intro p hp
      rw [hall p hp]
      rfl
    simp [np_2_pa, hnil]

/-- C3 (witness): the all-null input `{"x": None}` is not an empty-input
failure and encodes to the zero-column table. -/
theorem write_emptyInput_iff_witness :
    np_2_pa [("x", (none : Option NDArray))] = ⟨[]⟩ :=
  (write_emptyInput_iff [("x", none)] true).2 (by decide) (by decide)

/-- C4 (counterexample): the encoder itself performs no zero-rows check.
On the all-null input `{"x": None}` the encode `np_2_pa` returns (rather
than fails on) a zero-row table; the `EmptyTable` error is raised by
`Client.write`, the encode caller, after encoding. -/
theorem encode_no_emptyTable_check_counterexample :
    np_2_pa [("x", (none : Option NDArray))] = ⟨[]⟩ ∧
    (np_2_pa [("x", (none : Option NDArray))]).numRows = 0 ∧
    (Client.write [("x", (none : Option NDArray))] true).1 =
      .error .emptyTable := by
  decide

/-- C4 (amended): `Client.write` — not the encode operation itself — fails
with the empty-table error whenever the table resulting from encoding has
zero rows, and surfaces that error to write's caller. -/
theorem write_emptyTable_on_zero_rows (data : NamedInput) (sendOk : Bool)
    (h1 : data ≠ []) (h2 : (np_2_pa data).numRows = 0) :
    (Client.write data sendOk).1 = .error .emptyTable := by
  obtain ⟨p, rest, rfl⟩ := List.exists_cons_of_ne_nil h1
  simp [Client.write, h2]

/-- C4 (witness): the amended statement at the all-null input. -/
theorem write_emptyTable_on_zero_rows_witness :
    (Client.write [("x", (none : Option NDArray))] true).1 =
      .error .emptyTable :=
  write_emptyTable_on_zero_rows [("x", none)] true (by decide) (by decide)

/-- C5: on any table satisfying PyArrow's equal-row-count invariant, if
some column's first record has an element count different from the product
of its shape, decoding fails with a shape-mismatch error (aborting the
whole decode); and decoding never fails on a table produced by encoding
any input of well-formed arrays. -/
theorem decode_shape_mismatch :
    (∀ (t : Table) (name : String) (rs : List Record) (r : Record),
        t.Uniform → (name, rs) ∈ t.cols → rs.head? = some r →
        r.data.length ≠ r.shape.prod →
        ∃ n, pa_2_np t = .error (DecodeErr.shapeMismatch n)) ∧
    (∀ data : NamedInput,
        (∀ p ∈ data, ∀ a, p.2 = some a → a.WellFormed) →
        ∃ m, pa_2_np (np_2_pa data) = .ok m) := by
  constructor
  · intro t name rs r hu hmem hhd hbad
    have hpos : 0 < t.numRows := by
      have hlen := hu (name, rs) hmem
      cases rs with
      | nil => cases hhd
      | cons a tl =>
        rw [← hlen]
        simp
    have hne : ∀ c ∈ t.cols, c.2 ≠ [] := by
      intro c hc hnil
      have hlen := hu c hc
      rw [hnil] at hlen
      simp at hlen
      omega
    exact decodeCols_mismatch t.cols hne name rs r hmem hhd hbad
  · intro data h
    exact np_2_pa_decodes data fun p hp a ha => h p hp a ha

/-- C5 (witness): a malformed record (one element, shape `[2]`) makes
decode fail with the shape-mismatch error; a well-formed scalar input
decodes fine after encoding. -/
theorem decode_shape_mismatch_witness :
    (∃ n, pa_2_np ⟨[("x", [Record.mk [Scalar.i 1] [2] DClass.int64])]⟩ =
      .error (DecodeErr.shapeMismatch n)) ∧
    (∃ m, pa_2_np (np_2_pa [("y", some (NDArray.mk [] DClass.int64 [Scalar.i 7]))]) =
      .ok m) :=
  ⟨decode_shape_mismatch.1 ⟨[("x", [Record.mk [Scalar.i 1] [2] DClass.int64])]⟩
      "x" [Record.mk [Scalar.i 1] [2] DClass.int64]
      (Record.mk [Scalar.i 1] [2] DClass.int64)
      (by decide) (by decide) (by decide) (by decide),
    decode_shape_mismatch.2 [("y", some (NDArray.mk [] DClass.int64 [Scalar.i 7]))]
      (by
        intro p hp a ha
        simp only [List.mem_singleton] at hp
        subst hp
        injection ha with ha
        subst ha
        decide)⟩

/-- C6: a GET for a command never stored fails with the not-found error —
a constructor distinct from every decode failure, hence distinguishable —
and leaves the storage mapping unchanged. -/
theorem doGet_notFound (f : Transform) (storage : Store) (c : String)
    (h : Store.get storage c = none) :
    Server.doGet f storage c = (.error (.notFound c), storage) ∧
    ∀ e, (ServerErr.notFound c) ≠ ServerErr.decodeFail e := by
  refine ⟨by simp [Server.doGet, h], ?_⟩
  intro e hcontra
  exact ServerErr.noConfusion hcontra

/-- C6 (witness): GET on the empty store. -/
theorem doGet_notFound_witness :
    Server.doGet (fun m => m.map fun p => (p.1, some p.2)) [] "missing" =
      (.error (.notFound "missing"), []) :=
  (doGet_notFound _ [] "missing" rfl).1

/-- C7: `do_put` always succeeds, echoing the command; after
PUT(c, A) then PUT(c, B) the store holds B under c (last write wins), so a
subsequent GET reflects B — its result is the decode-transform-encode of B
— and not A. -/
theorem put_overwrite_last_write_wins (storage : Store) (c : String)
    (A B : Table) :
    (Server.doPut storage c A).2 = c ∧
    Store.get (Server.doPut (Server.doPut storage c A).1 c B).1 c = some B ∧
    (A ≠ B →
      Store.get (Server.doPut (Server.doPut storage c A).1 c B).1 c ≠ some A) ∧
    (∀ (f : Transform) (mB : NamedArrays), pa_2_np B = .ok mB →
      Server.doGet f (Server.doPut (Server.doPut storage c A).1 c B).1 c =
        (.ok (np_2_pa (f mB)),
          (Server.doPut (Server.doPut storage c A).1 c B).1)) := by
  have hget : Store.get (Server.doPut (Server.doPut storage c A).1 c B).1 c =
      some B := Store.get_put_self _ c B
  refine ⟨rfl, hget, ?_, ?_⟩
  · intro hAB hcontra
    rw [hget] at hcontra
    injection hcontra with hBA
    exact hAB hBA.symm
  · intro f mB hdec
    simp [Server.doGet, hget, hdec]

/-- C7 (witness): overwriting the empty table with a one-column table; the
store then answers with the second table and GET reflects it. -/
theorem put_overwrite_last_write_wins_witness :
    (Store.get (Server.doPut (Server.doPut [] "c" (Table.mk [])).1 "c"
        (Table.mk [("x", [Record.mk [Scalar.i 5] [] DClass.int64])])).1 "c" ≠
      some (Table.mk [])) ∧
    Server.doGet (fun m => m.map fun p => (p.1, some p.2))
      (Server.doPut (Server.doPut [] "c" (Table.mk [])).1 "c"
        (Table.mk [("x", [Record.mk [Scalar.i 5] [] DClass.int64])])).1 "c" =
      (.ok (np_2_pa ((fun (m : NamedArrays) => m.map fun p => (p.1, some p.2))
          [("x", NDArray.mk [] DClass.int64 [Scalar.i 5])])),
        (Server.doPut (Server.doPut [] "c" (Table.mk [])).1 "c"
          (Table.mk [("x", [Record.mk [Scalar.i 5] [] DClass.int64])])).1) :=
  ⟨(put_overwrite_last_write_wins [] "c" (Table.mk [])
      (Table.mk [("x", [Record.mk [Scalar.i 5] [] DClass.int64])])).2.2.1
      (by decide),
    (put_overwrite_last_write_wins [] "c" (Table.mk [])
      (Table.mk [("x", [Record.mk [Scalar.i 5] [] DClass.int64])])).2.2.2
      _ _ (by decide)⟩

/-- C8: the handlers do not serialize through the same lock.  `do_put`
holds the server lock around its storage write, but `do_get` performs its
storage reads — whether the command is found or not — without ever
acquiring the lock: read access is unguarded. -/
theorem doGet_reads_storage_unlocked :
    LockEv.acquire ∉ doGetLockTrace true ∧
    LockEv.acquire ∉ doGetLockTrace false ∧
    LockEv.storeRead ∈ doGetLockTrace true ∧
    doPutLockTrace = [LockEv.acquire, LockEv.storeWrite, LockEv.release] := by
  decide

/-- C9: whenever `Client.write` reaches the point of acquiring the
transmission writer, the writer is closed on every exit path — transmit
success or transport failure alike — and the close is the last action
before the result (error included) propagates to the caller. -/
theorem writer_closed_on_all_paths (data : NamedInput) (sendOk : Bool)
    (h : WriterEv.acquireWriter ∈ (Client.write data sendOk).2) :
    WriterEv.closeWriter ∈ (Client.write data sendOk).2 ∧
    (Client.write data sendOk).2.getLast? = some WriterEv.closeWriter := by
  by_cases hd : data.isEmpty
  · simp [Client.write, hd] at h
  · by_cases h0 : (np_2_pa data).numRows = 0
    · simp [Client.write, hd, h0] at h
    · constructor <;> simp [Client.write, hd, h0]

/-- C9 (witness): a failing transmit of a one-entry input still ends with
the writer close. -/
theorem writer_closed_on_all_paths_witness :
    WriterEv.closeWriter ∈
      (Client.write [("x", some (NDArray.mk [] DClass.int64 [Scalar.i 1]))]
        false).2 ∧
    (Client.write [("x", some (NDArray.mk [] DClass.int64 [Scalar.i 1]))]
        false).2.getLast? = some WriterEv.closeWriter :=
  writer_closed_on_all_paths
    [("x", some (NDArray.mk [] DClass.int64 [Scalar.i 1]))] false (by decide)

/-- C10: every column built by the encoder holds exactly one record, so a
table encoded from a mapping with at least one non-null entry has exactly
one row; and the decoder reads only the first row of each column —
truncating every column of any received table to its first row leaves the
decode result unchanged, so extra rows are silently ignored. -/
theorem encode_single_row_decode_first :
    (∀ data : NamedInput, ∀ c ∈ (np_2_pa data).cols, c.2.length = 1) ∧
    (∀ data : NamedInput, (∃ p ∈ data, p.2 ≠ none) →
      (np_2_pa data).numRows = 1) ∧
    (∀ t : Table, pa_2_np t = pa_2_np t.firstRow) := by
  refine ⟨np_2_pa_col_length, ?_, ?_⟩
  · intro data hex
    obtain ⟨p, hp, hpn⟩ := hex
    have hcols : (np_2_pa data).cols ≠ [] := by
      intro hnil
      simp only [np_2_pa] at hnil
      rw [List.filterMap_eq_nil_iff] at hnil
      have hnone := hnil p hp
      cases hv : p.2 with
      | none => exact hpn hv
      | some a =>
        rw [hv] at hnone
        cases hnone
    obtain ⟨c, cs, hc⟩ := List.exists_cons_of_ne_nil hcols
    have hlen : c.2.length = 1 :=
      np_2_pa_col_length data c (hc ▸ List.mem_cons_self c cs)
    unfold Table.numRows
    rw [hc]
    exact hlen
  · intro t
    exact (decodeCols_take_one t.cols).symm

/-- C10 (witness): the one-row invariant at a one-entry input. -/
theorem encode_single_row_decode_first_witness :
    (np_2_pa [("x", some (NDArray.mk [] DClass.int64 [Scalar.i 3]))]).numRows = 1 :=
  encode_single_row_decode_first.2.1
    [("x", some (NDArray.mk [] DClass.int64 [Scalar.i 3]))] (by decide)

end NumpyFlight
